import Mathlib

/-!
Verification of the API adaptation and streaming-response-reassembly layer of
the gemini-slice-maker repository (src/lib/api.ts and src/lib/openai-api.ts).

The embedding models:
- JS JSON.parse on the JSON fragments the layer handles, as an executable
  parser over character lists returning either a value or an error message.
  JS SyntaxError messages are modelled by two representative strings: the
  truncation message (Unexpected end of JSON input) exactly as V8 spells it,
  because the server-proxy path compares against that exact text, and a
  generic token message for every other malformed input.
- The SSE line-reassembly loops of planPresentationClientDirect and
  planPresentationServerProxy: byte chunks are character lists, the carry-over
  buffer and the newline split mirror buffer = lines.pop() in the source.
- The fetch wrappers, as request descriptors recording the URL and whether an
  abort-signal timeout is attached, plus the timeout error they raise.
- The facade dispatch of planPresentation and generateSlideImage.
-/

/-- JSON values as produced by JSON.parse. Object fields are kept in source
order; lookups take the last binding to mirror JS duplicate-key semantics. -/
inductive Json where
  | null : Json
  | bool : Bool → Json
  | num : Int → Json
  | str : String → Json
  | arr : List Json → Json
  | obj : List (String × Json) → Json

/-- Generic malformed-input message of the modelled JSON.parse. -/
def tokMsg : String := "Unexpected token"

/-- Truncated-input message of JSON.parse, spelled exactly as V8 does; the
server-proxy catch block in src/lib/api.ts compares against this text. -/
def endMsg : String := "Unexpected end of JSON input"

/-- JSON whitespace skipping. -/
def skipWs : List Char → List Char
  | [] => []
  | c :: cs => if c == ' ' || c == '\n' || c == '\t' || c == '\r' then skipWs cs else c :: cs

/-- JSON string body parsing, after the opening quote. -/
def parseStr : List Char → String → Except String (String × List Char)
  | [], _ => .error endMsg
  | '"' :: cs, acc => .ok (acc, cs)
  | '\\' :: [], _ => .error endMsg
  | '\\' :: e :: cs, acc =>
    if e == '"' then parseStr cs (acc.push '"')
    else if e == '\\' then parseStr cs (acc.push '\\')
    else if e == '/' then parseStr cs (acc.push '/')
    else if e == 'n' then parseStr cs (acc.push '\n')
    else if e == 't' then parseStr cs (acc.push '\t')
    else if e == 'r' then parseStr cs (acc.push '\r')
    else if e == 'b' then parseStr cs (acc.push (Char.ofNat 8))
    else if e == 'f' then parseStr cs (acc.push (Char.ofNat 12))
    else .error tokMsg
  | c :: cs, acc => parseStr cs (acc.push c)

/-- Longest digit run at the head of the input. -/
def takeDigits : List Char → String → (String × List Char)
  | [], acc => (acc, [])
  | c :: cs, acc => if c.isDigit then takeDigits cs (acc.push c) else (acc, c :: cs)

/-- Expect a literal character sequence, returning the given value. -/
def expectLit : List Char → List Char → Json → Except String (Json × List Char)
  | [], rest, j => .ok (j, rest)
  | _ :: _, [], _ => .error endMsg
  | e :: es, c :: cs, j => if c == e then expectLit es cs j else .error tokMsg

/-- Parse a quoted object key. -/
def parseKey (cs : List Char) : Except String (String × List Char) :=
  match skipWs cs with
  | [] => .error endMsg
  | '"' :: rest => parseStr rest ""
  | _ :: _ => .error tokMsg

/-- Parse the members of an object after the opening brace, given a parser for
values; fuel bounds the number of members. -/
def parseMembers (pv : List Char → Except String (Json × List Char)) :
    Nat → List Char → List (String × Json) → Except String (Json × List Char)
  | 0, _, _ => .error tokMsg
  | m + 1, cs, acc =>
    match parseKey cs with
    | .error e => .error e
    | .ok (k, rest) =>
      match skipWs rest with
      | [] => .error endMsg
      | c :: rest2 =>
        if c == ':' then
          match pv rest2 with
          | .error e => .error e
          | .ok (v, rest3) =>
            match skipWs rest3 with
            | [] => .error endMsg
            | c2 :: rest4 =>
              if c2 == ',' then parseMembers pv m rest4 (acc ++ [(k, v)])
              else if c2 == '\x7d' then .ok (.obj (acc ++ [(k, v)]), rest4)
              else .error tokMsg
        else .error tokMsg

/-- Parse the elements of an array after the opening bracket. -/
def parseElems (pv : List Char → Except String (Json × List Char)) :
    Nat → List Char → List Json → Except String (Json × List Char)
  | 0, _, _ => .error tokMsg
  | m + 1, cs, acc =>
    match pv cs with
    | .error e => .error e
    | .ok (v, rest) =>
      match skipWs rest with
      | [] => .error endMsg
      | c :: rest2 =>
        if c == ',' then parseElems pv m rest2 (acc ++ [v])
        else if c == ']' then .ok (.arr (acc ++ [v]), rest2)
        else .error tokMsg

/-- Parse one JSON value; fuel bounds nesting and member counts. -/
def parseVal : Nat → List Char → Except String (Json × List Char)
  | 0, _ => .error tokMsg
  | n + 1, cs =>
    match skipWs cs with
    | [] => .error endMsg
    | c :: rest =>
      if c == '\x7b' then
        match skipWs rest with
        | [] => .error endMsg
        | c2 :: rest2 =>
          if c2 == '\x7d' then .ok (.obj [], rest2)
          else parseMembers (fun z => parseVal n z) n (c2 :: rest2) []
      else if c == '[' then
        match skipWs rest with
        | [] => .error endMsg
        | c2 :: rest2 =>
          if c2 == ']' then .ok (.arr [], rest2)
          else parseElems (fun z => parseVal n z) n (c2 :: rest2) []
      else if c == '"' then
        match parseStr rest "" with
        | .error e => .error e
        | .ok (s, rest2) => .ok (.str s, rest2)
      else if c == 't' then expectLit "rue".data rest (.bool true)
      else if c == 'f' then expectLit "alse".data rest (.bool false)
      else if c == 'n' then expectLit "ull".data rest .null
      else if c == '-' then
        match takeDigits rest "" with
        | ("", _) => .error (if rest.isEmpty then endMsg else tokMsg)
        | (ds, rest2) =>
          match ds.toNat? with
          | some k => .ok (.num (-(k : Int)), rest2)
          | none => .error tokMsg
      else if c.isDigit then
        match takeDigits (c :: rest) "" with
        | (ds, rest2) =>
          match ds.toNat? with
          | some k => .ok (.num (k : Int), rest2)
          | none => .error tokMsg
      else .error tokMsg

/-- The model of JSON.parse: parse one value and require only trailing
whitespace after it. -/
def jsonParse (cs : List Char) : Except String Json :=
  match parseVal (2 * cs.length + 4) cs with
  | .error e => .error e
  | .ok (j, rest) =>
    match skipWs rest with
    | [] => .ok j
    | _ :: _ => .error tokMsg

/-- Field access, modelling optional chaining obj?.k: last binding wins as in
JS duplicate-key objects; access on a non-object yields undefined (none). -/
def Json.getF : Json → String → Option Json
  | .obj fs, k => fs.reverse.lookup k
  | _, _ => none

/-- Index access, modelling arr?.[i]. -/
def Json.getIdx : Json → Nat → Option Json
  | .arr xs, i => xs.get? i
  | _, _ => none

/-- JS truthiness of a JSON value. -/
def jsTruthy : Json → Bool
  | .null => false
  | .bool b => b
  | .num n => !(n == 0)
  | .str s => !(s == "")
  | .arr _ => true
  | .obj _ => true

/-- Comma join used by JS array stringification. -/
def commaJoin : List String → String
  | [] => ""
  | [s] => s
  | s :: ss => s ++ "," ++ commaJoin ss

/-- Fuelled JS ToString on JSON values; fuel bounds array nesting only, all
other constructors are handled without consuming fuel. -/
def jsToStrF : Nat → Json → String
  | f, j =>
    match j with
    | .str s => s
    | .num n => toString n
    | .bool b => cond b "true" "false"
    | .null => "null"
    | .obj _ => "[object Object]"
    | .arr xs =>
      match f with
      | 0 => ""
      | f2 + 1 => commaJoin (xs.map fun x => match x with | .null => "" | x2 => jsToStrF f2 x2)

/-- JS String(v) coercion. The fuel bounds array nesting depth; a JS engine
overflows its call stack far below this bound, so the cutoff is unreachable. -/
def jsToString (j : Json) : String := jsToStrF 18446744073709551615 j

/-- Split a character list at newlines, as JS String.split. The first
component is the segment before the first newline, the second the remaining
segments; the full segment list is the cons of the two. -/
def splitNl : List Char → List Char × List (List Char)
  | [] => ([], [])
  | c :: cs =>
    let p := splitNl cs
    if c = '\n' then ([], p.1 :: p.2) else (c :: p.1, p.2)

/-- All newline segments of a character list, never empty. -/
def segs (cs : List Char) : List (List Char) := (splitNl cs).1 :: (splitNl cs).2

/-- The complete lines the streaming loops process for this text: every
segment except the last, which stays in the carry-over buffer
(buffer = lines.pop() in the source, never flushed after the reader ends). -/
def jsLines (cs : List Char) : List (List Char) := (segs cs).dropLast

/-- The carry-over buffer left after splitting: the last newline segment. -/
def jsBuf (cs : List Char) : List Char := (segs cs).getLastD []

/-- Merge two segment lists across a concatenation boundary: the last segment
of the first list glues onto the first segment of the second. -/
def mergeAll : List (List Char) → List (List Char) → List (List Char)
  | [], q => q
  | [r], q =>
    match q with
    | [] => [r]
    | q0 :: qs => (r ++ q0) :: qs
  | r :: rs, q => r :: mergeAll rs q

/-- The payload of an SSE data line: the source tests line.startsWith with the
data prefix and then takes line.slice(6). -/
def dataOf (line : List Char) : Option (List Char) :=
  if "data: ".data.isPrefixOf line then some (line.drop 6) else none

/-- The Vertex delta path candidates[0].content.parts[0].text with optional
chaining, from planPresentationClientDirect. -/
def vertexPath (j : Json) : Option Json :=
  (j.getF "candidates").bind fun cands =>
    (cands.getIdx 0).bind fun c0 =>
      (c0.getF "content").bind fun ct =>
        (ct.getF "parts").bind fun ps =>
          (ps.getIdx 0).bind fun p0 => p0.getF "text"

/-- The OpenAI delta path choices[0].delta.content with optional chaining. -/
def openaiPath (j : Json) : Option Json :=
  (j.getF "choices").bind fun chs =>
    (chs.getIdx 0).bind fun c0 =>
      (c0.getF "delta").bind fun d => d.getF "content"

/-- Delta extracted from one line by the Vertex branch of
planPresentationClientDirect: parse the data payload, follow the text path,
and accept only truthy values; parse failures and absent paths are skipped
(the loop catch swallows them). -/
def vertexDelta (line : List Char) : Option String :=
  match dataOf line with
  | none => none
  | some d =>
    match jsonParse d with
    | .error _ => none
    | .ok parsed =>
      match vertexPath parsed with
      | none => none
      | some v => if jsTruthy v then some (jsToString v) else none

/-- Delta extracted from one line by the OpenAI branch: identical, except the
DONE sentinel is checked, via continue, before any parsing. -/
def openaiDelta (line : List Char) : Option String :=
  match dataOf line with
  | none => none
  | some d =>
    if d = "[DONE]".data then none
    else
      match jsonParse d with
      | .error _ => none
      | .ok parsed =>
        match openaiPath parsed with
        | none => none
        | some v => if jsTruthy v then some (jsToString v) else none

/-- The literal DONE line of an OpenAI-style stream. -/
def doneLine : List Char := "data: [DONE]".data

/-- State of a direct-mode streaming loop: the accumulated fullText and the
arguments of the onChunk calls made so far, in order. -/
structure DirSt where
  fullText : String
  events : List String

/-- One line of the direct-mode loop body: on an extracted delta, append to
fullText and, when an onChunk callback is present (cb), record the call. -/
def dirStep (delta : List Char → Option String) (cb : Bool) (st : DirSt) (line : List Char) :
    DirSt :=
  match delta line with
  | some d => ⟨st.fullText ++ d, if cb then st.events ++ [d] else st.events⟩
  | none => st

/-- Process a list of complete lines. -/
def procLines (delta : List Char → Option String) (cb : Bool) (st : DirSt)
    (lines : List (List Char)) : DirSt :=
  lines.foldl (dirStep delta cb) st

/-- Process the byte chunks of a direct-mode stream: per read, append the
chunk to the carry-over buffer, split at newlines, process every complete
line and keep the last segment as the new buffer, exactly as the source loop;
the final buffer is dropped when the reader reports done. -/
def dirChunks (delta : List Char → Option String) (cb : Bool) (st : DirSt) (buf : List Char) :
    List (List Char) → DirSt
  | [] => st
  | c :: cs => dirChunks delta cb (procLines delta cb st (jsLines (buf ++ c))) (jsBuf (buf ++ c)) cs

/-- Run a direct-mode streaming loop from the initial empty state. -/
def runDirect (delta : List Char → Option String) (cb : Bool) (chunks : List (List Char)) :
    DirSt :=
  dirChunks delta cb ⟨"", []⟩ [] chunks

/-- The complete lines a whole chunk sequence yields, in network order. -/
def sseLines (chunks : List (List Char)) : List (List Char) := jsLines chunks.flatten

/-- The deltas a chunk sequence yields under a given extractor, in order. -/
def deltasOf (delta : List Char → Option String) (chunks : List (List Char)) : List String :=
  (sseLines chunks).filterMap delta

/-- Concatenation of a list of strings in order. -/
def concatAll : List String → String
  | [] => ""
  | s :: ss => s ++ concatAll ss

/-- Modelled from the spec: cleanJsonString lives in lib/utils.ts, which is
not among the provided sources; only its import and call sites are. Per the
spec (section 4.4) it strips Markdown code fences and leading and trailing
prose around the outermost JSON object. Modelled as taking the substring from
the first opening brace through the last closing brace when both occur in
that order, and returning the input unchanged otherwise. -/
def cleanJsonString (s : String) : String :=
  let cs := s.data
  let pre := cs.dropWhile (fun c => c != '\x7b')
  let mid := (pre.reverse.dropWhile (fun c => c != '\x7d')).reverse
  if mid.isEmpty then s else ⟨mid⟩

/-- The tail of every planning call in src/lib/api.ts: clean the accumulated
text and JSON.parse it; the parse result, of whatever shape, is returned, and
a parse failure propagates as the raw parse error. -/
def planFinalize (fullText : String) : Except String Json :=
  jsonParse (cleanJsonString fullText).data

/-- Protocol selector of the configuration. -/
inductive ApiProtocol where
  | vertexAI
  | openai
deriving DecidableEq

/-- Request-mode selector of the configuration. -/
inductive RequestMode where
  | clientDirect
  | serverProxy
deriving DecidableEq

/-- The delta extractor the client-direct planning loop uses for a protocol. -/
def clientDelta : ApiProtocol → List Char → Option String
  | .vertexAI => vertexDelta
  | .openai => openaiDelta

/-- Client-direct planning given the protocol, whether an onChunk callback was
supplied, and the streamed chunks: reassemble, clean, JSON.parse, return. -/
def planPresentationClientDirect (proto : ApiProtocol) (cb : Bool)
    (chunks : List (List Char)) : Except String Json :=
  planFinalize (runDirect (clientDelta proto) cb chunks).fullText

/-- Outcome of the initial fetch of a direct-mode call: either the transport
responds within the bound with a chunked body, or it never resolves and the
abort signal fires. -/
inductive Transport where
  | hangs
  | respondsWith (chunks : List (List Char))

/-- The timeout error message raised by every direct fetch wrapper when its
abort signal fires: the bound in milliseconds divided by 1000. -/
def timeoutMessage (timeoutMs : Nat) : String :=
  "Request timeout after " ++ toString (timeoutMs / 1000) ++ " seconds"

/-- Client-direct planning including the transport stage: when the fetch
never resolves the 180000 ms abort timer fires, the wrapper raises the
timeout message, and the reader loop is never entered, so no onChunk call is
ever made; otherwise the streaming loop runs on the response chunks. -/
def planClientDirectFull (proto : ApiProtocol) (cb : Bool) :
    Transport → Except String Json × List String
  | .hangs => (.error (timeoutMessage 180000), [])
  | .respondsWith chunks =>
    (planPresentationClientDirect proto cb chunks, (runDirect (clientDelta proto) cb chunks).events)

/-- State of the server-proxy planning loop: the result record received so
far, if any, and the onChunk calls made so far. -/
structure ProxSt where
  result : Option Json
  events : List String

/-- The error-free tail of the proxy loop body: forward a truthy chunk field
to onChunk when a callback is present, then store a result when both done and
result are truthy. -/
def proxStepRest (cb : Bool) (st : ProxSt) (p : Json) : Except String ProxSt :=
  let st1 :=
    match p.getF "chunk" with
    | some cv => if jsTruthy cv && cb then ⟨st.result, st.events ++ [jsToString cv]⟩ else st
    | none => st
  let st2 :=
    match p.getF "done", p.getF "result" with
    | some dv, some rv => if jsTruthy dv && jsTruthy rv then ⟨some rv, st1.events⟩ else st1
    | _, _ => st1
  .ok st2

/-- The catch block of the proxy loop: any caught error whose message is not
the exact truncation text is rethrown; only truncation errors are swallowed. -/
def rethrowOr (st : ProxSt) (m : String) : Except String ProxSt :=
  if m = endMsg then .ok st else .error m

/-- One line of planPresentationServerProxy: parse the data payload, throw a
truthy error field, forward a chunk, store a done result; JSON.parse failures
and the TypeError that property access on a parsed null raises go through the
catch block, which rethrows everything except truncation errors. In JS the
null TypeError message also names the property read; only its difference
from the truncation text matters here. -/
def proxStep (cb : Bool) (st : ProxSt) (line : List Char) : Except String ProxSt :=
  match dataOf line with
  | none => .ok st
  | some d =>
    match jsonParse d with
    | .error m => rethrowOr st m
    | .ok parsed =>
      match parsed with
      | .null => rethrowOr st "Cannot read properties of null"
      | p =>
        match p.getF "error" with
        | some ev => if jsTruthy ev then rethrowOr st (jsToString ev) else proxStepRest cb st p
        | none => proxStepRest cb st p

/-- Process a list of complete proxy lines, aborting on a rethrown error. -/
def procProx (cb : Bool) (st : ProxSt) : List (List Char) → Except String ProxSt
  | [] => .ok st
  | l :: ls =>
    match proxStep cb st l with
    | .error m => .error m
    | .ok st2 => procProx cb st2 ls

/-- Chunked processing of the proxy stream with the same carry-over buffer
discipline as the direct loop. -/
def proxChunks (cb : Bool) (st : ProxSt) (buf : List Char) :
    List (List Char) → Except String ProxSt
  | [] => .ok st
  | c :: cs =>
    match procProx cb st (jsLines (buf ++ c)) with
    | .error m => .error m
    | .ok st2 => proxChunks cb st2 (jsBuf (buf ++ c)) cs

/-- planPresentationServerProxy on the streamed body: run the loop and, when
it finishes without a stored result, throw; otherwise return the stored
result as-is, with no shape validation. -/
def planPresentationServerProxy (cb : Bool) (chunks : List (List Char)) : Except String Json :=
  match proxChunks cb ⟨none, []⟩ [] chunks with
  | .error m => .error m
  | .ok st =>
    match st.result with
    | none => .error "No result received from stream"
    | some r => .ok r

/-- The result delivered by the done branch of the proxy loop body for a
parsed record, when reached. -/
def doneResultPure (p : Json) : Option Json :=
  match p.getF "done", p.getF "result" with
  | some dv, some rv => if jsTruthy dv && jsTruthy rv then some rv else none
  | _, _ => none

/-- The result a single proxy line delivers: some value exactly when the line
is a data line whose payload parses, is not null, has no truthy error field,
and has truthy done and result fields. -/
def doneResultOf (line : List Char) : Option Json :=
  match dataOf line with
  | none => none
  | some d =>
    match jsonParse d with
    | .error _ => none
    | .ok parsed =>
      match parsed with
      | .null => none
      | p =>
        match p.getF "error" with
        | some ev => if jsTruthy ev then none else doneResultPure p
        | none => doneResultPure p

/-- The last result delivered by a list of lines, if any. -/
def lastDelivered : List (List Char) → Option Json
  | [] => none
  | l :: ls => (lastDelivered ls).or (doneResultOf l)

/-- A network request descriptor: its URL and the abort-signal timeout passed
to fetch, if any. -/
structure FetchSpec where
  url : String
  timeoutMs : Option Nat
deriving DecidableEq

/-- Request of clientStreamVertexAPI: streaming planning endpoint with the
default 180000 ms abort timeout wired to the fetch signal. -/
def vertexStreamFetch (apiBase model : String) : FetchSpec :=
  ⟨apiBase ++ "/models/" ++ model ++ ":streamGenerateContent?alt=sse", some 180000⟩

/-- Request of clientStreamOpenAIAPI. -/
def openaiStreamFetch (apiBase : String) : FetchSpec :=
  ⟨apiBase ++ "/chat/completions", some 180000⟩

/-- Request of clientCallVertexAPI (image generation, non-streaming). -/
def vertexGenFetch (apiBase model : String) : FetchSpec :=
  ⟨apiBase ++ "/models/" ++ model ++ ":generateContent", some 180000⟩

/-- Request of clientCallOpenAIImageAPI (image via chat completion). -/
def openaiImageChatFetch (apiBase : String) : FetchSpec :=
  ⟨apiBase ++ "/chat/completions", some 180000⟩

/-- Request of callOpenAIChatAPI in src/lib/openai-api.ts. -/
def openaiChatFetch (apiBase : String) : FetchSpec :=
  ⟨apiBase ++ "/chat/completions", some 180000⟩

/-- Request of callOpenAIImageAPI in src/lib/openai-api.ts. -/
def openaiImagesGenFetch (apiBase : String) : FetchSpec :=
  ⟨apiBase ++ "/images/generations", some 180000⟩

/-- Request of planPresentationServerProxy: plain fetch with no AbortController
and no timeout of any kind. -/
def proxyPlanFetch : FetchSpec := ⟨"/api/plan", none⟩

/-- Request of generateSlideImageServerProxy: plain fetch, no timeout. -/
def proxyGenFetch : FetchSpec := ⟨"/api/gen", none⟩

/-- Every network request the adaptation layer can issue, across both
protocols, both transports, and both operations. -/
def adaptationLayerFetches (apiBase contentModel imageModel : String) : List FetchSpec :=
  [vertexStreamFetch apiBase contentModel, openaiStreamFetch apiBase,
   vertexGenFetch apiBase imageModel, openaiImageChatFetch apiBase,
   openaiChatFetch apiBase, openaiImagesGenFetch apiBase,
   proxyPlanFetch, proxyGenFetch]

/-- The direct-transport requests among them. -/
def directFetches (apiBase contentModel imageModel : String) : List FetchSpec :=
  [vertexStreamFetch apiBase contentModel, openaiStreamFetch apiBase,
   vertexGenFetch apiBase imageModel, openaiImageChatFetch apiBase,
   openaiChatFetch apiBase, openaiImagesGenFetch apiBase]

/-- The configuration snapshot the facade reads. -/
structure ApiConfig where
  protocol : ApiProtocol
  requestMode : RequestMode
  apiBase : String
  apiKey : String
  contentModelId : String
  imageModelId : String

/-- The first network request a planPresentation dispatch issues. -/
def planFirstFetch (c : ApiConfig) : FetchSpec :=
  match c.requestMode with
  | .clientDirect =>
    match c.protocol with
    | .vertexAI => vertexStreamFetch c.apiBase c.contentModelId
    | .openai => openaiStreamFetch c.apiBase
  | .serverProxy => proxyPlanFetch

/-- The first network request a generateSlideImage dispatch issues. -/
def genFirstFetch (c : ApiConfig) : FetchSpec :=
  match c.requestMode with
  | .clientDirect =>
    match c.protocol with
    | .vertexAI => vertexGenFetch c.apiBase c.imageModelId
    | .openai => openaiImageChatFetch c.apiBase
  | .serverProxy => proxyGenFetch

/-- The planPresentation facade up to its first network action: with no
configuration it throws before issuing anything; the second component lists
the network requests issued. -/
def planPresentation (cfg : Option ApiConfig) : Except String FetchSpec × List FetchSpec :=
  match cfg with
  | none => (.error "API not configured", [])
  | some c => (.ok (planFirstFetch c), [planFirstFetch c])

/-- The generateSlideImage facade up to its first network action. -/
def generateSlideImage (cfg : Option ApiConfig) : Except String FetchSpec × List FetchSpec :=
  match cfg with
  | none => (.error "API not configured", [])
  | some c => (.ok (genFirstFetch c), [genFirstFetch c])

/-- inlineData of a Vertex response part. -/
structure InlineData where
  mimeType : Option String
  data : Option String

/-- One part of a Vertex response candidate. -/
structure GPart where
  text : Option String
  inlineData : Option InlineData

/-- Content of a Vertex response candidate. -/
structure GContent where
  parts : Option (List GPart)

/-- One candidate of a Vertex response. -/
structure GCandidate where
  content : Option GContent

/-- A Vertex-style generateContent response. -/
structure GeminiResponse where
  candidates : Option (List GCandidate)

/-- The parts the image extractor iterates over:
response.candidates?.[0]?.content?.parts with a default of the empty list. -/
def partsOf (r : GeminiResponse) : List GPart :=
  match r.candidates with
  | some (c :: _) =>
    match c.content with
    | some ct =>
      match ct.parts with
      | some ps => ps
      | none => []
    | none => []
  | _ => []

/-- The data URI built from a mime type and base64 data; a missing or falsy
mime type defaults to image/png. -/
def dataUri (mt : Option String) (d : String) : String :=
  "data:" ++ (match mt with
    | some m => if m = "" then "image/png" else m
    | none => "image/png") ++ ";base64," ++ d

/-- Scan parts in order for the first truthy inlineData.data. -/
def scanParts : List GPart → Option String
  | [] => none
  | p :: ps =>
    match p.inlineData with
    | some idat =>
      match idat.data with
      | some d => if d = "" then scanParts ps else some (dataUri idat.mimeType d)
      | none => scanParts ps
    | none => scanParts ps

/-- extractImage from src/lib/api.ts. -/
def extractImage (r : GeminiResponse) : Option String := scanParts (partsOf r)

/-- The truthy inlineData payload of one part, when present. -/
def partData (p : GPart) : Option (Option String × String) :=
  match p.inlineData with
  | some idat =>
    match idat.data with
    | some d => if d = "" then none else some (idat.mimeType, d)
    | none => none
  | none => none

/-- The Vertex branch of generateSlideImageClientDirect applied to the
upstream response: extract an image or throw. -/
def generateSlideImageVertexDirect (r : GeminiResponse) : Except String String :=
  match extractImage r with
  | some u => .ok u
  | none => .error "No image generated"

/-- Message of an OpenAI chat response choice. -/
structure OAMessage where
  content : Option String

/-- One choice of an OpenAI chat response. -/
structure OAChoice where
  message : Option OAMessage

/-- A non-streaming OpenAI chat response. -/
structure OAResponse where
  choices : Option (List OAChoice)

/-- extractText from src/lib/openai-api.ts: choices?.[0]?.message?.content,
throwing on a falsy value. -/
def extractTextOA (r : OAResponse) : Except String String :=
  match (((r.choices.bind List.head?).bind fun c => c.message).bind fun msg => msg.content) with
  | some t => if t = "" then .error "No text in response" else .ok t
  | none => .error "No text in response"

/-- planPresentationOpenAI from src/lib/openai-api.ts applied to the upstream
response: extract the text and JSON.parse it directly, with no cleanup and no
shape validation; a parse failure propagates as the raw parse error. -/
def planPresentationOpenAI (r : OAResponse) : Except String Json :=
  match extractTextOA r with
  | .error m => .error m
  | .ok t => jsonParse t.data

/-- The NormalizedPlanResult shape required by the spec: a string title and a
sequence slides. Stated from the spec text, for comparison with what the code
returns. -/
def specPlanShape (j : Json) : Bool :=
  (match j.getF "title" with
   | some (.str _) => true
   | _ => false)
  && (match j.getF "slides" with
      | some (.arr _) => true
      | _ => false)

/-- Prepend a character to the first segment of a segment list. -/
def consHead (c : Char) : List (List Char) → List (List Char)
  | [] => [[c]]
  | l :: ls => (c :: l) :: ls

theorem segs_ne_nil (cs : List Char) : segs cs ≠ [] := by
  simp [segs]

theorem segs_nil : segs [] = [[]] := rfl

theorem segs_cons_nl (cs : List Char) : segs ('\n' :: cs) = [] :: segs cs := by
  simp [segs, splitNl]

theorem segs_cons_of_ne (c : Char) (cs : List Char) (h : ¬c = '\n') :
    segs (c :: cs) = consHead c (segs cs) := by
  simp [segs, splitNl, h, consHead]

theorem mergeAll_cons_cons (r r2 : List Char) (rs q : List (List Char)) :
    mergeAll (r :: r2 :: rs) q = r :: mergeAll (r2 :: rs) q := rfl

theorem mergeAll_one (r q0 : List Char) (qs : List (List Char)) :
    mergeAll [r] (q0 :: qs) = (r ++ q0) :: qs := rfl

theorem consHead_mergeAll (c : Char) (p q : List (List Char)) (hp : p ≠ []) (hq : q ≠ []) :
    consHead c (mergeAll p q) = mergeAll (consHead c p) q := by
  match p, q with
  | [], _ => exact absurd rfl hp
  | [r], q0 :: qs => simp [mergeAll, consHead]
  | r :: r2 :: rs, q0 :: qs => simp [mergeAll, consHead]

theorem segs_append (x y : List Char) : segs (x ++ y) = mergeAll (segs x) (segs y) := by
  induction x with
  | nil =>
    have : segs y = (splitNl y).1 :: (splitNl y).2 := rfl
    rw [List.nil_append, segs_nil, this, mergeAll_one, List.nil_append]
  | cons c cs ih =>
    by_cases hc : c = '\n'
    · subst hc
      rw [List.cons_append, segs_cons_nl, segs_cons_nl, ih]
      have h1 : segs cs = (splitNl cs).1 :: (splitNl cs).2 := rfl
      have h2 : segs y = (splitNl y).1 :: (splitNl y).2 := rfl
      rw [h1, h2, mergeAll_cons_cons]
    · rw [List.cons_append, segs_cons_of_ne _ _ hc, segs_cons_of_ne _ _ hc, ih,
        consHead_mergeAll c _ _ (segs_ne_nil cs) (segs_ne_nil y)]

theorem splitNl_of_noNl (l : List Char) (h : '\n' ∉ l) : splitNl l = (l, []) := by
  induction l with
  | nil => rfl
  | cons c cs ih =>
    have hc : ¬c = '\n' := fun hc => h (hc ▸ List.mem_cons_self c cs)
    have hcs : '\n' ∉ cs := fun hm => h (List.mem_cons_of_mem c hm)
    simp [splitNl, ih hcs, hc]

theorem segs_of_noNl (l : List Char) (h : '\n' ∉ l) : segs l = [l] := by
  simp [segs, splitNl_of_noNl l h]

theorem getLastD_indep (p : List α) (a d1 d2 : α) :
    (a :: p).getLastD d1 = (a :: p).getLastD d2 := by
  rw [List.getLastD_cons, List.getLastD_cons]

theorem getLastD_append (A B : List α) (b : α) :
    ∀ d, (A ++ b :: B).getLastD d = (b :: B).getLastD d := by
  induction A with
  | nil => intro d; rfl
  | cons a A ih =>
    intro d
    rw [List.cons_append, List.getLastD_cons, ih a, getLastD_indep B b a d]

theorem self_eq_dropLast_getLastD :
    ∀ p : List (List Char), p ≠ [] → p = p.dropLast ++ [p.getLastD []]
  | [], h => absurd rfl h
  | [a], _ => by simp
  | a :: b :: q, _ => by
    have ih := self_eq_dropLast_getLastD (b :: q) (List.cons_ne_nil b q)
    rw [List.dropLast_cons₂, List.getLastD_cons, getLastD_indep q b a ([] : List Char),
      List.cons_append, ← ih]

theorem segs_decomp (cs : List Char) : segs cs = jsLines cs ++ [jsBuf cs] :=
  self_eq_dropLast_getLastD (segs cs) (segs_ne_nil cs)

theorem segs_noNl_all (cs : List Char) : ∀ l ∈ segs cs, '\n' ∉ l := by
  induction cs with
  | nil =>
    intro l hl
    rw [segs_nil] at hl
    rcases List.mem_singleton.mp hl with rfl
    exact List.not_mem_nil _
  | cons c cs ih =>
    by_cases hc : c = '\n'
    · subst hc
      intro l hl
      rw [segs_cons_nl] at hl
      rcases List.mem_cons.mp hl with rfl | h
      · exact List.not_mem_nil _
      · exact ih l h
    · intro l hl
      have h1 : segs cs = (splitNl cs).1 :: (splitNl cs).2 := rfl
      rw [segs_cons_of_ne _ _ hc, h1] at hl
      rw [show consHead c ((splitNl cs).1 :: (splitNl cs).2)
            = (c :: (splitNl cs).1) :: (splitNl cs).2 from rfl] at hl
      rcases List.mem_cons.mp hl with rfl | h
      · intro hm
        rcases List.mem_cons.mp hm with h2 | h2
        · exact hc h2.symm
        · exact (ih _ (h1 ▸ List.mem_cons_self _ _)) h2
      · exact ih l (h1 ▸ List.mem_cons_of_mem _ h)

theorem getLastD_mem : ∀ (p : List α) (d : α), p ≠ [] → p.getLastD d ∈ p
  | [], _, h => absurd rfl h
  | [a], d, _ => by
    rw [List.getLastD_cons]
    exact List.mem_singleton.mpr rfl
  | a :: b :: q, d, _ => by
    rw [List.getLastD_cons]
    exact List.mem_cons_of_mem a (getLastD_mem (b :: q) a (List.cons_ne_nil b q))

theorem jsBuf_noNl (cs : List Char) : '\n' ∉ jsBuf cs :=
  segs_noNl_all cs _ (getLastD_mem (segs cs) [] (segs_ne_nil cs))

theorem mergeAll_append (A : List (List Char)) (b : List Char) (q : List (List Char)) :
    mergeAll (A ++ [b]) q = A ++ mergeAll [b] q := by
  induction A with
  | nil => rfl
  | cons a A ih =>
    cases A with
    | nil => rfl
    | cons a2 A2 =>
      have h : (a :: a2 :: A2) ++ [b] = a :: a2 :: (A2 ++ [b]) := rfl
      have h2 : (a2 :: A2) ++ [b] = a2 :: (A2 ++ [b]) := rfl
      rw [h, mergeAll_cons_cons]
      rw [h2] at ih
      rw [ih]
      rfl

theorem segs_split (x y : List Char) : segs (x ++ y) = jsLines x ++ segs (jsBuf x ++ y) := by
  rw [segs_append, segs_decomp x, mergeAll_append, segs_append (jsBuf x) y,
    segs_of_noNl _ (jsBuf_noNl x)]

theorem jsLines_append (x y : List Char) :
    jsLines (x ++ y) = jsLines x ++ jsLines (jsBuf x ++ y) := by
  unfold jsLines
  rw [segs_split x y]
  have h1 : segs (jsBuf x ++ y) = (splitNl (jsBuf x ++ y)).1 :: (splitNl (jsBuf x ++ y)).2 := rfl
  rw [h1, List.dropLast_append_cons]
  rfl

theorem jsBuf_append (x y : List Char) : jsBuf (x ++ y) = jsBuf (jsBuf x ++ y) := by
  unfold jsBuf
  rw [segs_split x y]
  have h1 : segs (jsBuf x ++ y) = (splitNl (jsBuf x ++ y)).1 :: (splitNl (jsBuf x ++ y)).2 := rfl
  rw [h1, getLastD_append]
  rfl

theorem jsLines_noNl (l : List Char) (h : '\n' ∉ l) : jsLines l = [] := by
  unfold jsLines
  rw [segs_of_noNl l h]
  rfl

theorem procLines_append (delta : List Char → Option String) (cb : Bool) (st : DirSt)
    (l1 l2 : List (List Char)) :
    procLines delta cb st (l1 ++ l2) = procLines delta cb (procLines delta cb st l1) l2 :=
  List.foldl_append _ _ _ _

theorem procLines_spec (delta : List Char → Option String) (cb : Bool) :
    ∀ (lines : List (List Char)) (t : String) (e : List String),
      procLines delta cb ⟨t, e⟩ lines
        = ⟨t ++ concatAll (lines.filterMap delta),
           e ++ (if cb then lines.filterMap delta else [])⟩ := by
  intro lines
  induction lines with
  | nil =>
    intro t e
    simp [procLines, concatAll, String.append_empty]
  | cons l ls ih =>
    intro t e
    show procLines delta cb (dirStep delta cb ⟨t, e⟩ l) ls = _
    cases hd : delta l with
    | none =>
      rw [show dirStep delta cb ⟨t, e⟩ l = ⟨t, e⟩ from by simp [dirStep, hd]]
      rw [ih t e]
      simp [List.filterMap_cons, hd]
    | some d =>
      rw [show dirStep delta cb ⟨t, e⟩ l = ⟨t ++ d, if cb then e ++ [d] else e⟩ from by
        simp [dirStep, hd]]
      cases cb with
      | true =>
        rw [if_pos rfl, ih]
        simp [List.filterMap_cons, hd, concatAll, String.append_assoc]
      | false =>
        rw [if_neg (by simp), ih]
        simp [List.filterMap_cons, hd, concatAll, String.append_assoc]

theorem dirChunks_eq (delta : List Char → Option String) (cb : Bool) :
    ∀ (chunks : List (List Char)) (st : DirSt) (buf : List Char), '\n' ∉ buf →
      dirChunks delta cb st buf chunks = procLines delta cb st (jsLines (buf ++ chunks.flatten)) := by
  intro chunks
  induction chunks with
  | nil =>
    intro st buf hb
    rw [show dirChunks delta cb st buf [] = st from rfl]
    rw [List.flatten_nil, List.append_nil, jsLines_noNl buf hb]
    rfl
  | cons c cs ih =>
    intro st buf hb
    rw [show dirChunks delta cb st buf (c :: cs)
          = dirChunks delta cb (procLines delta cb st (jsLines (buf ++ c))) (jsBuf (buf ++ c)) cs
        from rfl]
    rw [ih _ _ (jsBuf_noNl (buf ++ c)), ← procLines_append, ← jsLines_append (buf ++ c) cs.flatten,
      List.flatten_cons, ← List.append_assoc]

theorem runDirect_eq (delta : List Char → Option String) (cb : Bool) (chunks : List (List Char)) :
    runDirect delta cb chunks = procLines delta cb ⟨"", []⟩ (sseLines chunks) := by
  unfold runDirect sseLines
  rw [dirChunks_eq delta cb chunks ⟨"", []⟩ [] (List.not_mem_nil _), List.nil_append]

theorem runDirect_spec (delta : List Char → Option String) (cb : Bool) (chunks : List (List Char)) :
    runDirect delta cb chunks
      = ⟨concatAll (deltasOf delta chunks), if cb then deltasOf delta chunks else []⟩ := by
  rw [runDirect_eq, procLines_spec]
  unfold deltasOf
  rfl

theorem proxStep_result (cb : Bool) (st : ProxSt) (l : List Char) (st2 : ProxSt)
    (h : proxStep cb st l = .ok st2) : st2.result = (doneResultOf l).or st.result := by
  unfold proxStep at h
  unfold doneResultOf
  split at h
  · cases h
    rfl
  · split at h
    · unfold rethrowOr at h
      split at h
      · cases h; rfl
      · cases h
    · split at h
      · unfold rethrowOr at h
        split at h
        · cases h; rfl
        · cases h
      · split at h
        · split at h
          · rename_i htr
            rw [if_pos htr]
            unfold rethrowOr at h
            split at h
            · cases h; rfl
            · cases h
          · rename_i htr
            rw [if_neg htr]
            unfold proxStepRest at h
            cases h
            unfold doneResultPure
            split
            · split
              · rfl
              · split
                · split <;> rfl
                · rfl
            · split
              · split <;> rfl
              · rfl
        · unfold proxStepRest at h
          cases h
          unfold doneResultPure
          split
          · split
            · rfl
            · split
              · split <;> rfl
              · rfl
          · split
            · split <;> rfl
            · rfl

theorem procProx_append (cb : Bool) :
    ∀ (l1 l2 : List (List Char)) (st : ProxSt),
      procProx cb st (l1 ++ l2)
        = match procProx cb st l1 with
          | .error m => .error m
          | .ok st2 => procProx cb st2 l2 := by
  intro l1
  induction l1 with
  | nil => intro l2 st; rfl
  | cons l ls ih =>
    intro l2 st
    show (match proxStep cb st l with
          | Except.error m => (Except.error m : Except String ProxSt)
          | Except.ok st2 => procProx cb st2 (ls ++ l2)) = _
    cases hs : proxStep cb st l with
    | error m =>
      simp only [procProx, hs]
    | ok stm =>
      simp only [procProx, hs]
      exact ih l2 stm

theorem procProx_result (cb : Bool) :
    ∀ (ls : List (List Char)) (st st2 : ProxSt),
      procProx cb st ls = .ok st2 → st2.result = (lastDelivered ls).or st.result := by
  intro ls
  induction ls with
  | nil =>
    intro st st2 h
    cases h
    rfl
  | cons l ls ih =>
    intro st st2 h
    unfold procProx at h
    split at h
    · cases h
    · rename_i stm hs
      rw [ih stm st2 h, proxStep_result cb st l stm hs]
      rw [show lastDelivered (l :: ls) = (lastDelivered ls).or (doneResultOf l) from rfl,
        Option.or_assoc]

theorem lastDelivered_some :
    ∀ (ls : List (List Char)) (r : Json),
      lastDelivered ls = some r → ∃ l ∈ ls, doneResultOf l = some r := by
  intro ls
  induction ls with
  | nil =>
    intro r h
    cases h
  | cons l ls ih =>
    intro r h
    unfold lastDelivered at h
    cases ho : lastDelivered ls with
    | some r2 =>
      rw [ho] at h
      have h2 : some r2 = some r := h
      injection h2 with h3
      subst h3
      obtain ⟨l2, hm, hd⟩ := ih r2 ho
      exact ⟨l2, List.mem_cons_of_mem l hm, hd⟩
    | none =>
      rw [ho, Option.none_or] at h
      exact ⟨l, List.mem_cons_self l ls, h⟩

theorem proxChunks_eq (cb : Bool) :
    ∀ (chunks : List (List Char)) (st : ProxSt) (buf : List Char), '\n' ∉ buf →
      proxChunks cb st buf chunks = procProx cb st (jsLines (buf ++ chunks.flatten)) := by
  intro chunks
  induction chunks with
  | nil =>
    intro st buf hb
    rw [show proxChunks cb st buf [] = .ok st from rfl]
    rw [List.flatten_nil, List.append_nil, jsLines_noNl buf hb]
    rfl
  | cons c cs ih =>
    intro st buf hb
    rw [show proxChunks cb st buf (c :: cs)
          = (match procProx cb st (jsLines (buf ++ c)) with
             | .error m => .error m
             | .ok st2 => proxChunks cb st2 (jsBuf (buf ++ c)) cs) from rfl]
    rw [List.flatten_cons, ← List.append_assoc, jsLines_append (buf ++ c) cs.flatten,
      procProx_append]
    cases hs : procProx cb st (jsLines (buf ++ c)) with
    | error m => rfl
    | ok stm => exact ih stm _ (jsBuf_noNl (buf ++ c))

theorem procLines_drop (delta : List Char → Option String) (cb : Bool) (st : DirSt)
    (pre post : List (List Char)) (l : List Char) (h : delta l = none) :
    procLines delta cb st (pre ++ l :: post) = procLines delta cb st (pre ++ post) := by
  rw [procLines_append, procLines_append]
  show procLines delta cb (dirStep delta cb (procLines delta cb st pre) l) post = _
  rw [show dirStep delta cb (procLines delta cb st pre) l = procLines delta cb st pre from by
    unfold dirStep
    rw [h]]

theorem lastDelivered_none :
    ∀ ls : List (List Char), (∀ l ∈ ls, doneResultOf l = none) → lastDelivered ls = none := by
  intro ls
  induction ls with
  | nil => intro _; rfl
  | cons l ls ih =>
    intro hall
    unfold lastDelivered
    rw [ih fun l2 h2 => hall l2 (List.mem_cons_of_mem l h2), hall l (List.mem_cons_self l ls)]
    rfl

theorem proxChunks_toLines (cb : Bool) (chunks : List (List Char)) :
    proxChunks cb ⟨none, []⟩ [] chunks = procProx cb ⟨none, []⟩ (sseLines chunks) := by
  rw [proxChunks_eq cb chunks ⟨none, []⟩ [] (List.not_mem_nil _), List.nil_append]
  rfl

theorem proxResultOfOk (cb : Bool) (chunks : List (List Char)) (st : ProxSt)
    (h : proxChunks cb ⟨none, []⟩ [] chunks = .ok st) :
    st.result = lastDelivered (sseLines chunks) := by
  have hpp : procProx cb ⟨none, []⟩ (sseLines chunks) = .ok st := by
    rw [← proxChunks_toLines]
    exact h
  rw [procProx_result cb (sseLines chunks) ⟨none, []⟩ st hpp]
  exact Option.or_none

theorem proxOk_delivered (cb : Bool) (chunks : List (List Char)) (r : Json)
    (hr : planPresentationServerProxy cb chunks = .ok r) :
    ∃ l ∈ sseLines chunks, doneResultOf l = some r := by
  unfold planPresentationServerProxy at hr
  split at hr
  · cases hr
  · rename_i st hpc
    split at hr
    · cases hr
    · rename_i r2 hres
      injection hr with h3
      subst h3
      apply lastDelivered_some
      rw [← proxResultOfOk cb chunks st hpc]
      exact hres

theorem vertexDelta_none_of_parse_error (l d : List Char) (m : String)
    (hd : dataOf l = some d) (hp : jsonParse d = .error m) : vertexDelta l = none := by
  unfold vertexDelta
  simp only [hd, hp]

theorem openaiDelta_none_of_parse_error (l d : List Char) (m : String)
    (hd : dataOf l = some d) (hp : jsonParse d = .error m) : openaiDelta l = none := by
  unfold openaiDelta
  simp only [hd]
  by_cases hdo : d = "[DONE]".data
  · rw [if_pos hdo]
  · rw [if_neg hdo]
    simp only [hp]

theorem scanParts_cons_none (q : GPart) (ps : List GPart) (hq : partData q = none) :
    scanParts (q :: ps) = scanParts ps := by
  obtain ⟨qt, qi⟩ := q
  cases qi with
  | none => rfl
  | some idat =>
    obtain ⟨mt, dt⟩ := idat
    cases dt with
    | none => rfl
    | some d =>
      by_cases he : d = ""
      · subst he
        rfl
      · simp [partData, he] at hq

theorem scanParts_cons_some (q : GPart) (ps : List GPart) (mt : Option String) (d : String)
    (hq : partData q = some (mt, d)) :
    scanParts (q :: ps) = some (dataUri mt d) := by
  obtain ⟨qt, qi⟩ := q
  cases qi with
  | none => simp [partData] at hq
  | some idat =>
    obtain ⟨mti, dt⟩ := idat
    cases dt with
    | none => simp [partData] at hq
    | some d0 =>
      by_cases he : d0 = ""
      · subst he
        simp [partData] at hq
      · simp only [partData, if_neg he] at hq
        injection hq with hq2
        injection hq2 with h1 h2
        subst h1
        subst h2
        show (if d0 = "" then scanParts ps else some (dataUri mti d0)) = some (dataUri mti d0)
        rw [if_neg he]

theorem scanParts_skip :
    ∀ ps1 rest : List GPart, (∀ q ∈ ps1, partData q = none) →
      scanParts (ps1 ++ rest) = scanParts rest := by
  intro ps1
  induction ps1 with
  | nil => intro rest _; rfl
  | cons q ps ih =>
    intro rest hall
    rw [List.cons_append, scanParts_cons_none q _ (hall q (List.mem_cons_self q ps)),
      ih rest fun q2 h2 => hall q2 (List.mem_cons_of_mem q h2)]

theorem scanParts_none :
    ∀ ps : List GPart, (∀ p ∈ ps, p.inlineData = none) → scanParts ps = none := by
  intro ps
  induction ps with
  | nil => intro _; rfl
  | cons q ps ih =>
    intro h
    rw [scanParts_cons_none q ps (by unfold partData; rw [h q (List.mem_cons_self q ps)])]
    exact ih fun p hp => h p (List.mem_cons_of_mem q hp)

/-- C4: stream reassembly is order-preserving. For every sequence of SSE
chunks fed to either direct planning stream, the accumulated text equals the
concatenation of the extracted deltas in network order, and the progress
callback is invoked once per delta with exactly the incremental delta in that
same order; in particular feeding a chunk whose delta is AB and then one
whose delta is CD accumulates ABCD with callbacks AB then CD. -/
theorem C4_stream_reassembly_order_preserving :
    (∀ chunks : List (List Char),
      (runDirect vertexDelta true chunks).fullText = concatAll (deltasOf vertexDelta chunks)
      ∧ (runDirect vertexDelta true chunks).events = deltasOf vertexDelta chunks
      ∧ (runDirect openaiDelta true chunks).fullText = concatAll (deltasOf openaiDelta chunks)
      ∧ (runDirect openaiDelta true chunks).events = deltasOf openaiDelta chunks)
    ∧ runDirect vertexDelta true
        [("data: \x7b\"candidates\":[\x7b\"content\":\x7b\"parts\":[\x7b\"text\":\"AB\"\x7d]\x7d\x7d]\x7d\n").data,
         ("data: \x7b\"candidates\":[\x7b\"content\":\x7b\"parts\":[\x7b\"text\":\"CD\"\x7d]\x7d\x7d]\x7d\n").data]
      = ⟨"ABCD", ["AB", "CD"]⟩ := by
  constructor
  · intro chunks
    refine ⟨?_, ?_, ?_, ?_⟩ <;> rw [runDirect_spec] <;> rfl
  · rfl

/-- C10: the final result of a direct-mode planning call is independent of
the optional progress callback: for every protocol and every transport
outcome, the returned value is the same whether onChunk is supplied or
omitted, because the callback only observes each delta. -/
theorem C10_result_independent_of_callback :
    ∀ (proto : ApiProtocol) (t : Transport),
      (planClientDirectFull proto true t).1 = (planClientDirectFull proto false t).1 := by
  intro proto t
  cases t with
  | hangs => rfl
  | respondsWith chunks =>
    show planPresentationClientDirect proto true chunks
        = planPresentationClientDirect proto false chunks
    unfold planPresentationClientDirect
    rw [runDirect_spec, runDirect_spec]

/-- C8: with no API configuration present, both facade operations raise the
configuration error and, as the empty issued-request list shows, no network
call is attempted; with a configuration present exactly the dispatched
request is issued. -/
theorem C8_missing_config_fails_before_network :
    planPresentation none = (.error "API not configured", [])
    ∧ generateSlideImage none = (.error "API not configured", [])
    ∧ ∀ c : ApiConfig,
        (planPresentation (some c)).2 = [planFirstFetch c]
        ∧ (generateSlideImage (some c)).2 = [genFirstFetch c] :=
  ⟨rfl, rfl, fun _ => ⟨rfl, rfl⟩⟩

/-- C6 counterexample: the DONE line does not terminate OpenAI-style
parsing. The loop merely continues past it, so a delta line after the DONE
line is still parsed, accumulated, and delivered (first conjunct), whereas
termination at the DONE line would have produced the empty outcome that only
the DONE-only stream produces (second conjunct). -/
theorem C6_counterexample :
    runDirect openaiDelta true
        [("data: [DONE]\ndata: \x7b\"choices\":[\x7b\"delta\":\x7b\"content\":\"X\"\x7d\x7d]\x7d\n").data]
      = ⟨"X", ["X"]⟩
    ∧ runDirect openaiDelta true [("data: [DONE]\n").data] = ⟨"", []⟩ := ⟨rfl, rfl⟩

/-- C6 amended: the literal DONE line is checked before any parsing and is
never parsed as JSON, never treated as a delta — no accumulation and no
onChunk call — and never raises an error: it extracts nothing, and the loop
is a no-op on it, continuing with subsequent lines rather than terminating
the stream. -/
theorem C6_done_line_skipped_not_terminating :
    openaiDelta doneLine = none
    ∧ ∀ (cb : Bool) (st : DirSt) (pre post : List (List Char)),
        procLines openaiDelta cb st (pre ++ doneLine :: post)
          = procLines openaiDelta cb st (pre ++ post) := by
  constructor
  · rfl
  · intro cb st pre post
    exact procLines_drop openaiDelta cb st pre post doneLine rfl

/-- C1 counterexample: a completed Vertex-direct planning call whose model
output is the text of an empty JSON object returns that object as-is. The
returned value has neither a string title nor a slides sequence, so the
claimed validation of the NormalizedPlanResult shape does not happen. -/
theorem C1_counterexample :
    planPresentationClientDirect ApiProtocol.vertexAI true
        [("data: \x7b\"candidates\":[\x7b\"content\":\x7b\"parts\":[\x7b\"text\":\"\x7b\x7d\"\x7d]\x7d\x7d]\x7d\n").data]
      = .ok (Json.obj [])
    ∧ specPlanShape (Json.obj []) = false := ⟨rfl, rfl⟩

/-- C1 amended: on every completing path the returned value is exactly the
JSON parse of the cleaned reassembled text (direct transports, both
protocols) or the forwarded result record of the proxy stream (proxied
transport); no title or slides validation is applied anywhere, so the result
has the NormalizedPlanResult shape only when the model output does. -/
theorem C1_plan_returns_parsed_text_unvalidated :
    ∀ (cb : Bool) (chunks : List (List Char)),
      planPresentationClientDirect ApiProtocol.vertexAI cb chunks
        = planFinalize (concatAll (deltasOf vertexDelta chunks))
      ∧ planPresentationClientDirect ApiProtocol.openai cb chunks
        = planFinalize (concatAll (deltasOf openaiDelta chunks))
      ∧ ∀ r, planPresentationServerProxy cb chunks = .ok r →
          ∃ l ∈ sseLines chunks, doneResultOf l = some r := by
  intro cb chunks
  refine ⟨?_, ?_, fun r hr => proxOk_delivered cb chunks r hr⟩
  · unfold planPresentationClientDirect
    rw [runDirect_spec]
    rfl
  · unfold planPresentationClientDirect
    rw [runDirect_spec]
    rfl

/-- C1 amended, witness: a proxy stream delivering a well-formed result
record returns normally, and the returned record was delivered by a line of
the stream. -/
theorem C1_plan_returns_parsed_text_unvalidated_witness :
    ∃ l ∈ sseLines
        [("data: \x7b\"done\":true,\"result\":\x7b\"title\":\"T\",\"slides\":[]\x7d\x7d\n").data],
      doneResultOf l = some (Json.obj [("title", Json.str "T"), ("slides", Json.arr [])]) :=
  (C1_plan_returns_parsed_text_unvalidated true
      [("data: \x7b\"done\":true,\"result\":\x7b\"title\":\"T\",\"slides\":[]\x7d\x7d\n").data]).2.2
    (Json.obj [("title", Json.str "T"), ("slides", Json.arr [])]) rfl

/-- C2 counterexample: when the reassembled planning text fails to parse
after cleanup, the raised error is the generic JSON.parse failure itself
propagating unchanged, not a distinguishable malformed-model-output
classification: the Vertex-direct call below accumulates the text garbage
and returns exactly the parse error of the cleaned text. -/
theorem C2_counterexample :
    planPresentationClientDirect ApiProtocol.vertexAI true
        [("data: \x7b\"candidates\":[\x7b\"content\":\x7b\"parts\":[\x7b\"text\":\"garbage\"\x7d]\x7d\x7d]\x7d\n").data]
      = .error tokMsg
    ∧ jsonParse (cleanJsonString "garbage").data = .error tokMsg := ⟨rfl, rfl⟩

/-- C2 amended: for every reassembled planning text that fails to parse
after cleanup, the generic parse exception propagates unchanged to the
caller on both direct protocols, and planPresentationOpenAI likewise
propagates the raw parse error of the extracted text, which it does not even
clean; no malformed-model-output classification exists in the layer. -/
theorem C2_parse_error_propagates_unwrapped :
    ∀ (cb : Bool) (chunks : List (List Char)) (m : String) (r : OAResponse) (t : String),
      (jsonParse (cleanJsonString (concatAll (deltasOf vertexDelta chunks))).data = .error m →
        planPresentationClientDirect ApiProtocol.vertexAI cb chunks = .error m)
      ∧ (jsonParse (cleanJsonString (concatAll (deltasOf openaiDelta chunks))).data = .error m →
        planPresentationClientDirect ApiProtocol.openai cb chunks = .error m)
      ∧ (extractTextOA r = .ok t → jsonParse t.data = .error m →
        planPresentationOpenAI r = .error m) := by
  intro cb chunks m r t
  refine ⟨?_, ?_, ?_⟩
  · intro h
    unfold planPresentationClientDirect
    rw [runDirect_spec]
    exact h
  · intro h
    unfold planPresentationClientDirect
    rw [runDirect_spec]
    exact h
  · intro he hp
    unfold planPresentationOpenAI
    rw [he]
    exact hp

/-- C2 amended, witness: the garbage stream propagates the token-level parse
error on the Vertex-direct path, and an OpenAI non-streaming response whose
text is unparseable propagates its raw parse error. -/
theorem C2_parse_error_propagates_unwrapped_witness :
    planPresentationClientDirect ApiProtocol.vertexAI true
        [("data: \x7b\"candidates\":[\x7b\"content\":\x7b\"parts\":[\x7b\"text\":\"garbage\"\x7d]\x7d\x7d]\x7d\n").data]
      = .error tokMsg
    ∧ planPresentationOpenAI ⟨some [⟨some ⟨some "nope"⟩⟩]⟩ = .error tokMsg :=
  ⟨(C2_parse_error_propagates_unwrapped true
      [("data: \x7b\"candidates\":[\x7b\"content\":\x7b\"parts\":[\x7b\"text\":\"garbage\"\x7d]\x7d\x7d]\x7d\n").data]
      tokMsg ⟨some [⟨some ⟨some "nope"⟩⟩]⟩ "nope").1 rfl,
   (C2_parse_error_propagates_unwrapped true [] tokMsg ⟨some [⟨some ⟨some "nope"⟩⟩]⟩ "nope").2.2
     rfl rfl⟩

/-- C3 counterexample: the claim says every network call issued by the
adaptation layer is bounded by an abort-signal timeout of about 180 seconds,
but the proxied-transport planning fetch to /api/plan is one of the
adaptation-layer requests and is issued with no abort signal and no timeout
of any kind. -/
theorem C3_counterexample :
    proxyPlanFetch
        ∈ adaptationLayerFetches "https://api.example.com/v1" "gemini-2.5-flash"
            "gemini-2.5-flash-image"
    ∧ proxyPlanFetch.timeoutMs = none := by
  constructor
  · simp [adaptationLayerFetches]
  · rfl

/-- C3 amended: every direct-transport request (planning and image, both
protocols, both API modules) carries the 180000 ms abort-signal timeout, and
a direct planning call whose transport never resolves within the bound
raises the timeout message naming the bound in seconds, with no progress
callback firing after the abort; the two proxied-transport fetches carry no
timeout at all. -/
theorem C3_timeout_direct_only :
    ∀ (base cm im : String) (proto : ApiProtocol) (cb : Bool),
      (∀ f ∈ directFetches base cm im, f.timeoutMs = some 180000)
      ∧ planClientDirectFull proto cb Transport.hangs = (.error (timeoutMessage 180000), [])
      ∧ timeoutMessage 180000 = "Request timeout after 180 seconds"
      ∧ proxyPlanFetch.timeoutMs = none
      ∧ proxyGenFetch.timeoutMs = none := by
  intro base cm im proto cb
  refine ⟨?_, rfl, rfl, rfl, rfl⟩
  intro f hf
  simp only [directFetches, List.mem_cons, List.not_mem_nil, or_false] at hf
  rcases hf with rfl | rfl | rfl | rfl | rfl | rfl <;> rfl

/-- C3 amended, witness: the Vertex streaming fetch carries the 180000 ms
timeout. -/
theorem C3_timeout_direct_only_witness :
    (vertexStreamFetch "https://api.example.com/v1" "gemini-2.5-flash").timeoutMs
      = some 180000 :=
  (C3_timeout_direct_only "https://api.example.com/v1" "gemini-2.5-flash" "img"
      ApiProtocol.vertexAI true).1 _ (by simp [directFetches])

/-- C5 counterexample: in the proxied degenerate path a data line whose
payload fails to parse is not dropped silently: with the malformed middle
line the whole call aborts with the rethrown parse error, losing the valid
chunk and done records around it, while the same stream without that line
returns the delivered result. -/
theorem C5_counterexample :
    planPresentationServerProxy true
        [("data: \x7b\"chunk\":\"A\"\x7d\ndata: not-json\ndata: \x7b\"done\":true,\"result\":\x7b\"title\":\"T\",\"slides\":[]\x7d\x7d\n").data]
      = .error tokMsg
    ∧ planPresentationServerProxy true
        [("data: \x7b\"chunk\":\"A\"\x7d\ndata: \x7b\"done\":true,\"result\":\x7b\"title\":\"T\",\"slides\":[]\x7d\x7d\n").data]
      = .ok (Json.obj [("title", Json.str "T"), ("slides", Json.arr [])]) := ⟨rfl, rfl⟩

/-- C5 amended: a data line whose payload fails to JSON-parse is dropped
silently — without aborting the stream and without affecting the deltas of
the lines before and after it — in both direct streaming paths (Vertex and
OpenAI); in the proxied path only a failure carrying the exact truncation
message is swallowed, and any other unparseable line rethrows its parse
error and aborts the stream. -/
theorem C5_malformed_line_dropped_direct_only :
    ∀ (cb : Bool) (st : DirSt) (pst : ProxSt) (pre post : List (List Char))
      (l d : List Char) (m : String),
      dataOf l = some d → jsonParse d = .error m →
      procLines vertexDelta cb st (pre ++ l :: post) = procLines vertexDelta cb st (pre ++ post)
      ∧ procLines openaiDelta cb st (pre ++ l :: post) = procLines openaiDelta cb st (pre ++ post)
      ∧ (m = endMsg → proxStep cb pst l = .ok pst)
      ∧ (m ≠ endMsg → proxStep cb pst l = .error m) := by
  intro cb st pst pre post l d m hd hp
  refine ⟨procLines_drop _ cb st pre post l (vertexDelta_none_of_parse_error l d m hd hp),
    procLines_drop _ cb st pre post l (openaiDelta_none_of_parse_error l d m hd hp), ?_, ?_⟩
  · intro he
    unfold proxStep
    simp only [hd, hp]
    unfold rethrowOr
    rw [if_pos he]
  · intro he
    unfold proxStep
    simp only [hd, hp]
    unfold rethrowOr
    rw [if_neg he]

/-- C5 amended, witness: the not-json line between two valid Vertex lines is
a no-op of the direct loop, and the same line rethrows the token-level parse
error in the proxied loop. -/
theorem C5_malformed_line_dropped_direct_only_witness :
    procLines vertexDelta true ⟨"", []⟩
        ([("data: \x7b\"candidates\":[\x7b\"content\":\x7b\"parts\":[\x7b\"text\":\"AB\"\x7d]\x7d\x7d]\x7d").data]
          ++ ("data: not-json").data
            :: [("data: \x7b\"candidates\":[\x7b\"content\":\x7b\"parts\":[\x7b\"text\":\"CD\"\x7d]\x7d\x7d]\x7d").data])
      = procLines vertexDelta true ⟨"", []⟩
          ([("data: \x7b\"candidates\":[\x7b\"content\":\x7b\"parts\":[\x7b\"text\":\"AB\"\x7d]\x7d\x7d]\x7d").data]
            ++ [("data: \x7b\"candidates\":[\x7b\"content\":\x7b\"parts\":[\x7b\"text\":\"CD\"\x7d]\x7d\x7d]\x7d").data])
    ∧ proxStep true ⟨none, []⟩ (("data: not-json").data) = .error tokMsg := by
  have h := C5_malformed_line_dropped_direct_only true ⟨"", []⟩ ⟨none, []⟩
    [("data: \x7b\"candidates\":[\x7b\"content\":\x7b\"parts\":[\x7b\"text\":\"AB\"\x7d]\x7d\x7d]\x7d").data]
    [("data: \x7b\"candidates\":[\x7b\"content\":\x7b\"parts\":[\x7b\"text\":\"CD\"\x7d]\x7d\x7d]\x7d").data]
    (("data: not-json").data) (("not-json").data) tokMsg rfl rfl
  exact ⟨h.1, h.2.2.2 (by decide)⟩

/-- C7: for every Vertex-style image response the adapter scans
candidates[0].content.parts in order: when no part anywhere carries
inlineData, the Vertex branch of generateSlideImageClientDirect raises the
No image generated error, and when the first part carrying a truthy
inlineData.data has mime type mt and data d, it returns the data URI built
from them, with the mime type defaulting to image/png when absent. -/
theorem C7_image_extraction_first_inline_data :
    (∀ r : GeminiResponse, (∀ p ∈ partsOf r, p.inlineData = none) →
      generateSlideImageVertexDirect r = .error "No image generated")
    ∧ (∀ (r : GeminiResponse) (ps1 ps2 : List GPart) (p : GPart)
        (mt : Option String) (d : String),
        partsOf r = ps1 ++ p :: ps2 →
        (∀ q ∈ ps1, partData q = none) →
        partData p = some (mt, d) →
        generateSlideImageVertexDirect r = .ok (dataUri mt d)) := by
  constructor
  · intro r hall
    unfold generateSlideImageVertexDirect extractImage
    rw [scanParts_none (partsOf r) hall]
  · intro r ps1 ps2 p mt d hsplit hskip hp
    unfold generateSlideImageVertexDirect extractImage
    rw [hsplit, scanParts_skip ps1 (p :: ps2) hskip, scanParts_cons_some p ps2 mt d hp]

/-- C7 witness: a response whose only part is text-only raises the error,
and a response whose first part carries a jpeg inlineData yields the jpeg
data URI. -/
theorem C7_image_extraction_first_inline_data_witness :
    generateSlideImageVertexDirect ⟨some [⟨some ⟨some [⟨some "hello", none⟩]⟩⟩]⟩
      = .error "No image generated"
    ∧ generateSlideImageVertexDirect
        ⟨some [⟨some ⟨some [⟨none, some ⟨some "image/jpeg", some "Zm9v"⟩⟩]⟩⟩]⟩
      = .ok "data:image/jpeg;base64,Zm9v" := by
  constructor
  · exact C7_image_extraction_first_inline_data.1
      ⟨some [⟨some ⟨some [⟨some "hello", none⟩]⟩⟩]⟩
      (by
        intro p hp
        rcases List.mem_singleton.mp hp with rfl
        rfl)
  · exact C7_image_extraction_first_inline_data.2
      ⟨some [⟨some ⟨some [⟨none, some ⟨some "image/jpeg", some "Zm9v"⟩⟩]⟩⟩]⟩
      [] [] ⟨none, some ⟨some "image/jpeg", some "Zm9v"⟩⟩ (some "image/jpeg") "Zm9v"
      rfl (fun q hq => absurd hq (List.not_mem_nil q)) rfl

/-- C9: in proxied mode, when the planning stream completes without ever
delivering a record containing both done and result the call raises an
error — the exact No result received message whenever the loop itself threw
nothing — and it returns normally only when such a record was delivered, in
which case the returned value is that delivered result. -/
theorem C9_proxy_requires_result_record :
    ∀ (cb : Bool) (chunks : List (List Char)),
      ((∀ l ∈ sseLines chunks, doneResultOf l = none) →
        ∃ m, planPresentationServerProxy cb chunks = .error m)
      ∧ ((∀ l ∈ sseLines chunks, doneResultOf l = none) →
          ∀ st, proxChunks cb ⟨none, []⟩ [] chunks = .ok st →
            planPresentationServerProxy cb chunks = .error "No result received from stream")
      ∧ (∀ r, planPresentationServerProxy cb chunks = .ok r →
          ∃ l ∈ sseLines chunks, doneResultOf l = some r) := by
  intro cb chunks
  refine ⟨?_, ?_, fun r hr => proxOk_delivered cb chunks r hr⟩
  · intro hall
    cases hpc : proxChunks cb ⟨none, []⟩ [] chunks with
    | error m =>
      refine ⟨m, ?_⟩
      unfold planPresentationServerProxy
      rw [hpc]
    | ok st =>
      refine ⟨"No result received from stream", ?_⟩
      have hres : st.result = none := by
        rw [proxResultOfOk cb chunks st hpc, lastDelivered_none _ hall]
      unfold planPresentationServerProxy
      simp only [hpc, hres]
  · intro hall st hok
    have hres : st.result = none := by
      rw [proxResultOfOk cb chunks st hok, lastDelivered_none _ hall]
    unfold planPresentationServerProxy
    simp only [hok, hres]

/-- C9 witness: an empty proxy stream delivers no result record and the call
raises an error. -/
theorem C9_proxy_requires_result_record_witness :
    ∃ m, planPresentationServerProxy true [] = .error m :=
  (C9_proxy_requires_result_record true []).1 fun l hl => absurd hl (List.not_mem_nil l)
